import Mathlib

/-!
Verification development for the Dayflow activity-timeline synthesis engine
(`core/llm_provider.py`, `core/stats_collector.py`).

The Python source is shallowly embedded: dictionaries decoded from model
responses become the inductive `JValue`; Python `float` values become `ℚ`;
functions that can raise are `Option`-valued (`none` = an uncaught
exception escapes the function).
-/

set_option autoImplicit false

namespace Dayflow

/-- A decoded JSON value, the result of Python's `json.loads`.
Objects keep their fields as an insertion-ordered association list with
unique keys (later duplicate keys overwrite, as in Python dicts). -/
inductive JValue where
  | null
  | bool (b : Bool)
  | num (q : ℚ)
  | str (s : String)
  | arr (elems : List JValue)
  | obj (fields : List (String × JValue))

/-- Python dict insertion: if the key is present, replace its value in
place (keeping its position); otherwise append the binding at the end. -/
def dictInsert (k : String) (v : JValue) : List (String × JValue) → List (String × JValue)
  | [] => [(k, v)]
  | (k', v') :: rest =>
      if k' = k then (k', v) :: rest else (k', v') :: dictInsert k v rest

/-- Python `dict.get(k)`: the value bound to `k`, if any. -/
def dictGet (k : String) : List (String × JValue) → Option JValue
  | [] => none
  | (k', v') :: rest => if k' = k then some v' else dictGet k rest

/-- JSON insignificant whitespace. -/
def isJsonWs (c : Char) : Bool :=
  c = ' ' || c = '\t' || c = '\n' || c = '\r'

def skipWs (cs : List Char) : List Char :=
  cs.dropWhile isJsonWs

def isDigit (c : Char) : Bool := '0' ≤ c ∧ c ≤ '9'

def digitVal (c : Char) : ℕ := c.toNat - '0'.toNat

/-- Accumulate a run of decimal digits, returning the value of
`acc * 10^k + digits` and the remaining input. -/
def readDigits (acc : ℕ) : List Char → ℕ × ℕ × List Char
  | [] => (acc, 0, [])
  | c :: rest =>
      if isDigit c then
        let (n, k, rem) := readDigits (acc * 10 + digitVal c) rest
        (n, k + 1, rem)
      else (acc, 0, c :: rest)

/-- Parse a JSON number (RFC 8259 grammar: optional minus, integer part
without leading zeros, optional fraction, optional exponent), as an exact
rational. -/
def parseJsonNumber (cs : List Char) : Option (ℚ × List Char) := do
  let (neg, cs₁) := match cs with
    | '-' :: rest => (true, rest)
    | _ => (false, cs)
  -- integer part: "0" or a nonzero digit followed by digits
  let (ipart, cs₂) ← match cs₁ with
    | '0' :: rest => some ((0 : ℕ), rest)
    | c :: rest =>
        if isDigit c ∧ c ≠ '0' then
          let (n, _, rem) := readDigits (digitVal c) rest
          some (n, rem)
        else none
    | [] => none
  -- fraction part
  let (frac, fdigits, cs₃) := match cs₂ with
    | '.' :: rest =>
        match rest with
        | c :: _ =>
            if isDigit c then
              let (n, k, rem) := readDigits 0 rest
              (n, k, rem)
            else (0, 0, '.' :: rest)
        | [] => (0, 0, '.' :: rest)
    | _ => (0, 0, cs₂)
  -- a '.' must be followed by at least one digit
  if cs₂ ≠ cs₃ ∨ cs₂.head? ≠ some '.' then
    let (expo, cs₄) ← match cs₃ with
      | c :: rest =>
          if c = 'e' ∨ c = 'E' then
            let (eneg, rest₁) := match rest with
              | '+' :: r => (false, r)
              | '-' :: r => (true, r)
              | _ => (false, rest)
            match rest₁ with
            | d :: _ =>
                if isDigit d then
                  let (n, _, rem) := readDigits 0 rest₁
                  some ((if eneg then -(n : ℤ) else (n : ℤ)), rem)
                else none
            | [] => none
          else some ((0 : ℤ), c :: rest)
      | [] => some ((0 : ℤ), [])
    let mantissa : ℚ := (ipart : ℚ) + (frac : ℚ) / ((10 : ℚ) ^ fdigits)
    let scaled : ℚ := mantissa * (10 : ℚ) ^ expo
    some ((if neg then -scaled else scaled), cs₄)
  else none

def hexVal (c : Char) : Option ℕ :=
  if isDigit c then some (digitVal c)
  else if 'a' ≤ c ∧ c ≤ 'f' then some (c.toNat - 'a'.toNat + 10)
  else if 'A' ≤ c ∧ c ≤ 'F' then some (c.toNat - 'A'.toNat + 10)
  else none

/-- The character denoted by a single-letter JSON escape (`\u` sequences
are handled separately). -/
def escChar : Char → Option Char
  | '"' => some '"'
  | '\\' => some '\\'
  | '/' => some '/'
  | 'b' => some (Char.ofNat 8)
  | 'f' => some (Char.ofNat 12)
  | 'n' => some '\n'
  | 'r' => some '\r'
  | 't' => some '\t'
  | _ => none

/-- Parse the body of a JSON string after the opening quote, handling the
standard escapes; strict mode (as Python's `json.loads`) rejects raw
control characters. -/
def parseStringBody : List Char → Option (List Char × List Char)
  | [] => none
  | '"' :: rest => some ([], rest)
  | '\\' :: 'u' :: a :: b :: c :: d :: rest => do
      let ha ← hexVal a
      let hb ← hexVal b
      let hc ← hexVal c
      let hd ← hexVal d
      let (s, rem) ← parseStringBody rest
      some (Char.ofNat (((ha * 16 + hb) * 16 + hc) * 16 + hd) :: s, rem)
  | '\\' :: e :: rest => do
      let c ← escChar e
      let (s, rem) ← parseStringBody rest
      some (c :: s, rem)
  | c :: rest =>
      if c.toNat < 32 then none
      else (parseStringBody rest).map (fun (s, rem) => (c :: s, rem))

mutual

/-- Recursive-descent JSON value parser (`fuel` bounds nesting; it is
always called with more fuel than the input length, which suffices since
every nested value consumes at least one character). -/
def parseValue : ℕ → List Char → Option (JValue × List Char)
  | 0, _ => none
  | _ + 1, [] => none
  | fuel + 1, c :: rest =>
      if c = 'n' then
        match rest with
        | 'u' :: 'l' :: 'l' :: rem => some (.null, rem)
        | _ => none
      else if c = 't' then
        match rest with
        | 'r' :: 'u' :: 'e' :: rem => some (.bool true, rem)
        | _ => none
      else if c = 'f' then
        match rest with
        | 'a' :: 'l' :: 's' :: 'e' :: rem => some (.bool false, rem)
        | _ => none
      else if c = '"' then
        (parseStringBody rest).map (fun (s, rem) => (.str (String.mk s), rem))
      else if c = '[' then
        match skipWs rest with
        | ']' :: rem => some (.arr [], rem)
        | cs => (parseElems fuel cs).map (fun (es, rem) => (.arr es, rem))
      else if c = '{' then
        match skipWs rest with
        | '}' :: rem => some (.obj [], rem)
        | cs => (parseFields fuel cs []).map (fun (fs, rem) => (.obj fs, rem))
      else
        (parseJsonNumber (c :: rest)).map (fun (q, rem) => (.num q, rem))

/-- Comma-separated JSON array elements up to the closing bracket. -/
def parseElems : ℕ → List Char → Option (List JValue × List Char)
  | 0, _ => none
  | fuel + 1, cs => do
      let (v, rest) ← parseValue fuel (skipWs cs)
      match skipWs rest with
      | ',' :: rest' => (parseElems fuel rest').map (fun (es, rem) => (v :: es, rem))
      | ']' :: rest' => some ([v], rest')
      | _ => none

/-- Comma-separated `"key": value` members up to the closing brace;
duplicate keys overwrite as in a Python dict. -/
def parseFields : ℕ → List Char → List (String × JValue) →
    Option (List (String × JValue) × List Char)
  | 0, _, _ => none
  | fuel + 1, cs, acc =>
      match skipWs cs with
      | '"' :: rest => do
          let (k, rest₁) ← parseStringBody rest
          match skipWs rest₁ with
          | ':' :: rest₂ => do
              let (v, rest₃) ← parseValue fuel (skipWs rest₂)
              let acc' := dictInsert (String.mk k) v acc
              match skipWs rest₃ with
              | ',' :: rest₄ => parseFields fuel rest₄ acc'
              | '}' :: rest₄ => some (acc', rest₄)
              | _ => none
          | _ => none
      | _ => none

end

/-- Python `json.loads`: parse one JSON value and require only whitespace
after it; `none` models a raised `json.JSONDecodeError`. -/
def jsonLoads (s : String) : Option JValue :=
  let cs := skipWs s.toList
  match parseValue (cs.length + 1) cs with
  | some (v, rest) => if skipWs rest = [] then some v else none
  | none => none

/-- The index of the last occurrence of `c` in `cs`, if any. -/
def lastIdxOf (c : Char) (cs : List Char) : Option ℕ :=
  (cs.reverse.findIdx? (· = c)).map (fun k => cs.length - 1 - k)

/-- `re.search(r'\{[\s\S]*\}', text)`: the regex matches greedily from
the first `'{'` of the text to the last `'}'`, provided that `'}'` lies
strictly after the `'{'`; otherwise there is no match. -/
def extractJsonSpan (s : String) : Option String :=
  match s.toList.findIdx? (· = '{') with
  | none => none
  | some i =>
    match lastIdxOf '}' s.toList with
    | none => none
    | some j =>
        if i < j then some (String.mk ((s.toList.drop i).take (j - i + 1)))
        else none

/-- Python `float(str)` on a stripped decimal literal
(sign, digits with optional point, optional exponent); `inf`/`nan`
spellings are outside this rational model and fail here. -/
def pyFloatOfString (s : String) : Option ℚ :=
  let cs := (s.toList.dropWhile isJsonWs).reverse.dropWhile isJsonWs |>.reverse
  let (neg, cs₁) := match cs with
    | '-' :: rest => (true, rest)
    | '+' :: rest => (false, rest)
    | _ => (false, cs)
  let (ipart, idigits, cs₂) := readDigits 0 cs₁
  let (frac, fdigits, cs₃) := match cs₂ with
    | '.' :: rest => readDigits 0 rest
    | _ => (0, 0, cs₂)
  if idigits = 0 ∧ (cs₂.head? ≠ some '.' ∨ fdigits = 0) then none
  else
    let expoPart : Option (ℤ × List Char) := match cs₃ with
      | c :: rest =>
          if c = 'e' ∨ c = 'E' then
            let (eneg, rest₁) := match rest with
              | '+' :: r => (false, r)
              | '-' :: r => (true, r)
              | _ => (false, rest)
            let (e, edigits, rem) := readDigits 0 rest₁
            if edigits = 0 then none
            else some ((if eneg then -(e : ℤ) else (e : ℤ)), rem)
          else none
      | [] => some (0, [])
    match expoPart with
    | none => if cs₃ = [] then
        some ((if neg then -1 else 1) * ((ipart : ℚ) + (frac : ℚ) / (10 : ℚ) ^ fdigits))
      else none
    | some (expo, rem) =>
        if rem = [] then
          some ((if neg then -1 else 1) *
            ((ipart : ℚ) + (frac : ℚ) / (10 : ℚ) ^ fdigits) * (10 : ℚ) ^ expo)
        else none

/-- Python's `float(x)` builtin applied to a decoded JSON value: numbers
pass through, booleans coerce to 0/1, numeric strings are parsed;
`None`, lists and dicts raise `TypeError` (= `none`). -/
def pyFloat : JValue → Option ℚ
  | .num q => some q
  | .bool b => some (if b then 1 else 0)
  | .str s => pyFloatOfString s
  | _ => none

/-- `dict.get(k)` where a stored JSON `null` is indistinguishable from a
missing key (both are Python `None`). -/
def dictGetOpt (k : String) (fields : List (String × JValue)) : Option JValue :=
  match dictGet k fields with
  | some .null => none
  | x => x

/-- Modelled from the spec: `core/types.py` is not under `src/`.
`Observation` (§3) is a plain record; the payload fields decoded from the
model response are stored verbatim with no validation (the source
dataclass is mutated in place by `_apply_window_records`, so it cannot
validate), hence `text`/`app_name`/`window_title` hold raw `JValue`s. -/
structure Observation where
  start_ts : ℚ
  end_ts : ℚ
  text : JValue
  app_name : Option JValue := none
  window_title : Option JValue := none

/-- The `for item in items` loop of `_parse_observations_from_text`
(llm_provider.py 426–434): every entry yields one `Observation`; a
`float()` failure (`ValueError`/`TypeError`) or `.get` on a non-dict
entry (`AttributeError`) is not caught, so it aborts the whole batch
(`none`). -/
def parseObsItems (duration : ℚ) : List JValue → Option (List Observation)
  | [] => some []
  | .obj fields :: rest =>
      match pyFloat ((dictGet "start_ts" fields).getD (.num 0)),
            pyFloat ((dictGet "end_ts" fields).getD (.num duration)),
            parseObsItems duration rest with
      | some s, some e, some more =>
          some ({ start_ts := s, end_ts := e,
                  text := (dictGet "text" fields).getD (.str ""),
                  app_name := dictGetOpt "app_name" fields,
                  window_title := dictGetOpt "window_title" fields } :: more)
      | _, _, _ => none
  | _ :: _ => none

/-- `DayflowBackendProvider._parse_observations_from_text`
(llm_provider.py 415–444). Only `json.JSONDecodeError` is caught (giving
the single synthetic fallback observation); when the regex finds no
candidate span the `try` body simply falls through, returning the empty
list; any other exception escapes (`none`). -/
def parse_observations_from_text (text : String) (duration : ℚ) :
    Option (List Observation) :=
  match extractJsonSpan text with
  | none => some []
  | some span =>
    match jsonLoads span with
    | none =>
        some [{ start_ts := 0, end_ts := duration, text := .str (text.take 500) }]
    | some (.obj fields) =>
        match (dictGet "observations" fields).getD (.arr []) with
        | .arr items => parseObsItems duration items
        | _ => none
    | some _ => none

/-- One window-focus telemetry sample: the window tracker emits dicts
holding exactly these keys. -/
structure WindowRecord where
  app_name : String
  window_title : String
  timestamp : ℚ

/-- One entry of the `time_segments` list of `_apply_window_records`:
the tuple `(start_ts, end_ts, app_name, window_title)` (the second
component is named `stop` because `end` is reserved in Lean). -/
structure TimeSegment where
  start : ℚ
  stop : ℚ
  app_name : String
  window_title : String

/-- The segment-building loop of `_apply_window_records` (llm_provider.py
310–329): a new segment starts when `app_name` differs from the tracked
`current_app`; the flush is guarded by Python truthiness of
`current_app` (`None` and `""` are falsy); the final segment's end is
the overall `duration`. -/
def segLoop (duration : ℚ) :
    Option String → String → ℚ → List WindowRecord → List TimeSegment
  | curApp, curTitle, curStart, [] =>
      match curApp with
      | some a => if a ≠ "" then [⟨curStart, duration, a, curTitle⟩] else []
      | none => []
  | curApp, curTitle, curStart, r :: rest =>
      if curApp = some r.app_name then
        segLoop duration curApp curTitle curStart rest
      else
        match curApp with
        | some a =>
            if a ≠ "" then
              ⟨curStart, r.timestamp, a, curTitle⟩ ::
                segLoop duration (some r.app_name) r.window_title r.timestamp rest
            else
              segLoop duration (some r.app_name) r.window_title r.timestamp rest
        | none => segLoop duration (some r.app_name) r.window_title r.timestamp rest

/-- The `time_segments` value computed by `_apply_window_records`. -/
def buildTimeSegments (records : List WindowRecord) (duration : ℚ) :
    List TimeSegment :=
  segLoop duration none "" 0 records

/-- `app_durations[app_name] = app_durations.get(app_name, 0) + overlap`:
dict update in insertion order. -/
def addOverlap (k : String) (d : ℚ) : List (String × ℚ) → List (String × ℚ)
  | [] => [(k, d)]
  | (k', v) :: rest =>
      if k' = k then (k', v + d) :: rest else (k', v) :: addOverlap k d rest

/-- `if app_name not in app_titles: app_titles[app_name] = window_title`:
only the first title seen for an app is recorded. -/
def addTitle (k : String) (t : String) :
    List (String × String) → List (String × String)
  | [] => [(k, t)]
  | (k', t') :: rest =>
      if k' = k then (k', t') :: rest else (k', t') :: addTitle k t rest

/-- Association-list lookup (Python `dict` access by key). -/
def assocGet {β : Type} (k : String) : List (String × β) → Option β
  | [] => none
  | (k', v) :: rest => if k' = k then some v else assocGet k rest

/-- Python `max(a, b)` on two rationals (spelled out so that it computes
by kernel reduction). -/
def maxQ (a b : ℚ) : ℚ := if a ≤ b then b else a

/-- Python `min(a, b)` on two rationals. -/
def minQ (a b : ℚ) : ℚ := if a ≤ b then a else b

/-- One iteration of the per-observation overlap loop of
`_apply_window_records` (llm_provider.py 340–349): accumulate the
overlapped duration per app (and its first-seen title) when the overlap
is positive. -/
def durStep (obsStart obsEnd : ℚ)
    (acc : List (String × ℚ) × List (String × String)) (seg : TimeSegment) :
    List (String × ℚ) × List (String × String) :=
  let oS := maxQ obsStart seg.start
  let oE := minQ obsEnd seg.stop
  if oS < oE then
    (addOverlap seg.app_name (oE - oS) acc.1,
     addTitle seg.app_name seg.window_title acc.2)
  else acc

/-- The per-observation overlap accumulation loop of
`_apply_window_records` (llm_provider.py 337–349): per-app overlapped
duration and first-seen title, accumulated over the segments in order. -/
def appDurTitles (obsStart obsEnd : ℚ) (segs : List TimeSegment) :
    List (String × ℚ) × List (String × String) :=
  segs.foldl (durStep obsStart obsEnd) ([], [])

/-- The tail of Python's `max(d, key=d.get)`: fold keeping the current
best, replacing it only on a strictly larger value. -/
def maxKeyGo (bk : String) (bv : ℚ) : List (String × ℚ) → String
  | [] => bk
  | (k, v) :: rest => if bv < v then maxKeyGo k v rest else maxKeyGo bk bv rest

/-- `max(app_durations, key=app_durations.get)` over an insertion-ordered
dict: the first key attaining the maximal value (`none` on an empty
dict, where Python would raise). -/
def pyMaxKey : List (String × ℚ) → Option String
  | [] => none
  | (k, v) :: rest => some (maxKeyGo k v rest)

/-- The per-observation attribution step of `_apply_window_records`
(llm_provider.py 332–356): when some segment overlaps, `app_name` (and
the recorded first title) of the app with maximal accumulated overlap
replaces the observation's fields; otherwise the observation is kept
unchanged. -/
def overlayOne (segs : List TimeSegment) (obs : Observation) : Observation :=
  let durs := (appDurTitles obs.start_ts obs.end_ts segs).1
  let titles := (appDurTitles obs.start_ts obs.end_ts segs).2
  match pyMaxKey durs with
  | none => obs
  | some mainApp =>
      { obs with
        app_name := some (.str mainApp),
        window_title := match assocGet mainApp titles with
          | some t => some (.str t)
          | none => obs.window_title }

/-- `DayflowBackendProvider._apply_window_records` (llm_provider.py
294–358): build the time segments from the records, then rewrite every
observation's app attribution in place. -/
def apply_window_records (observations : List Observation)
    (records : List WindowRecord) (duration : ℚ) : List Observation :=
  if records.isEmpty then observations
  else observations.map (overlayOne (buildTimeSegments records duration))

/-- The response-handling tail of `transcribe_video` (llm_provider.py
281–292): parse the observations, overlay the window records when both
are nonempty (Python truthiness of the lists), and turn any escaped
exception into an empty batch. -/
def transcribe_postprocess (response_text : String) (duration : ℚ)
    (records : List WindowRecord) : List Observation :=
  match parse_observations_from_text response_text duration with
  | none => []
  | some obs =>
      if !records.isEmpty && !obs.isEmpty then
        apply_window_records obs records duration
      else obs

/-- Python truthiness of `item.get(k)`: missing keys and `None`, `False`,
`0`, `""`, `[]`, `{}` are falsy. -/
def pyTruthy : Option JValue → Bool
  | none => false
  | some .null => false
  | some (.bool b) => b
  | some (.num q) => q ≠ 0
  | some (.str s) => s ≠ ""
  | some (.arr l) => !l.isEmpty
  | some (.obj l) => !l.isEmpty

/-- Modelled from the spec: `core/types.py` is not under `src/`; `AppSite`
(§3) is a plain record, storing the parsed payload values verbatim. -/
structure AppSite where
  name : JValue
  duration_seconds : JValue

/-- Modelled from the spec: `core/types.py` is not under `src/`;
`Distraction` (§3) is a plain record, storing parsed values verbatim. -/
structure Distraction where
  description : JValue
  timestamp : JValue
  duration_seconds : JValue

/-- Modelled from the spec: `core/types.py` is not under `src/`;
`ActivityCard` (§3) is a plain record. Its `category`/`title`/`summary`
hold whatever `_parse_cards_from_text` passes (no validation layer exists
in `src/`: `stats_collector.py` guards `card.category` with
`or "其他"` and a fallback colour for unrecognized values, which it
could not be if the record normalized the field). `datetime` instants
are modelled as abstract integers. -/
structure ActivityCard where
  category : JValue
  title : JValue
  summary : JValue
  start_time : Option ℤ
  end_time : Option ℤ
  app_sites : List AppSite
  distractions : List Distraction
  productivity_score : ℚ

/-- The `start_time` resolution of `_parse_cards_from_text`
(llm_provider.py 461–467): when the entry's value is truthy, try
`datetime.fromisoformat` (after the `Z` rewrite); the bare `except:`
turns any failure — including a non-string value — into the
pipeline-supplied anchor; a falsy/missing value also yields the anchor.
`fromiso` abstracts the stdlib ISO-8601 parser. -/
def resolveCardStart (fromiso : String → Option ℤ)
    (fields : List (String × JValue)) (anchor : Option ℤ) : Option ℤ :=
  if pyTruthy (dictGet "start_time" fields) then
    match dictGet "start_time" fields with
    | some (.str s) =>
        match fromiso (s.replace "Z" "+00:00") with
        | some d => some d
        | none => anchor
    | _ => anchor
  else anchor

/-- The `end_time` resolution of `_parse_cards_from_text`
(llm_provider.py 469–473): as for `start_time`, but the bare `except:`
body is `pass`, so every failure and every falsy/missing value leaves
`card_end = None`. -/
def resolveCardEnd (fromiso : String → Option ℤ)
    (fields : List (String × JValue)) : Option ℤ :=
  if pyTruthy (dictGet "end_time" fields) then
    match dictGet "end_time" fields with
    | some (.str s) => fromiso (s.replace "Z" "+00:00")
    | _ => none
  else none

/-- The `app_sites` loop of `_parse_cards_from_text` (llm_provider.py
476–481): permissive per-field defaults, but a non-dict entry raises
(`none`). -/
def parseAppSites : List JValue → Option (List AppSite)
  | [] => some []
  | .obj f :: rest => do
      let more ← parseAppSites rest
      some ({ name := (dictGet "name" f).getD (.str ""),
              duration_seconds := (dictGet "duration_seconds" f).getD (.num 0) }
            :: more)
  | _ :: _ => none

/-- The `distractions` loop of `_parse_cards_from_text` (llm_provider.py
484–490). -/
def parseDistractions : List JValue → Option (List Distraction)
  | [] => some []
  | .obj f :: rest => do
      let more ← parseDistractions rest
      some ({ description := (dictGet "description" f).getD (.str ""),
              timestamp := (dictGet "timestamp" f).getD (.num 0),
              duration_seconds := (dictGet "duration_seconds" f).getD (.num 0) }
            :: more)
  | _ :: _ => none

/-- Python `for _ in x` over a decoded value: only lists iterate here;
anything else raises (`none`). -/
def getArr : JValue → Option (List JValue)
  | .arr l => some l
  | _ => none

/-- One iteration of the `for item in items` loop of
`_parse_cards_from_text` (llm_provider.py 456–502): builds one
`ActivityCard`; uncaught exceptions (non-dict entries, a bad
`float(productivity_score)`, a non-list `app_sites`/`distractions`)
abort the whole batch (`none`). -/
def buildCard (fromiso : String → Option ℤ) (anchor : Option ℤ) :
    JValue → Option ActivityCard
  | .obj fields =>
      match (getArr ((dictGet "app_sites" fields).getD (.arr []))).bind parseAppSites with
      | none => none
      | some sites =>
        match (getArr ((dictGet "distractions" fields).getD (.arr []))).bind
            parseDistractions with
        | none => none
        | some dists =>
          match pyFloat ((dictGet "productivity_score" fields).getD (.num 0)) with
          | none => none
          | some score =>
              some { category := (dictGet "category" fields).getD (.str "其他"),
                     title := (dictGet "title" fields).getD (.str "未命名活动"),
                     summary := (dictGet "summary" fields).getD (.str ""),
                     start_time := resolveCardStart fromiso fields anchor,
                     end_time := resolveCardEnd fromiso fields,
                     app_sites := sites,
                     distractions := dists,
                     productivity_score := score }
  | _ => none

/-- The card-entry loop over `items`. -/
def parseCardItems (fromiso : String → Option ℤ) (anchor : Option ℤ) :
    List JValue → Option (List ActivityCard)
  | [] => some []
  | item :: rest => do
      let c ← buildCard fromiso anchor item
      let more ← parseCardItems fromiso anchor rest
      some (c :: more)

/-- `DayflowBackendProvider._parse_cards_from_text` (llm_provider.py
446–507): same span extraction as for observations; a
`json.JSONDecodeError` (the only caught exception) leaves `cards = []`;
no regex match also returns `[]`; other exceptions escape (`none`). -/
def parse_cards_from_text (fromiso : String → Option ℤ) (text : String)
    (start_time : Option ℤ) : Option (List ActivityCard) :=
  match extractJsonSpan text with
  | none => some []
  | some span =>
    match jsonLoads span with
    | none => some []
    | some (.obj fields) =>
        match (dictGet "cards" fields).getD (.arr []) with
        | .arr items => parseCardItems fromiso start_time items
        | _ => none
    | some _ => none

/-- The structured content of the user message assembled by
`generate_activity_cards` before calling the completion endpoint (the
flat `obs_text` serialization is abstracted to its constituents; only
the last 3 context cards are included, as `context_cards[-3:]`). -/
structure CardRequest where
  observations : List Observation
  start_time : Option ℤ
  context_cards : List ActivityCard
  prompt : Option String

/-- `DayflowBackendProvider.generate_activity_cards` (llm_provider.py
360–413). `chat` abstracts `_chat_completion` (`none` = transport
failure). The second component counts completion requests issued: with
an empty observation list the method returns before any request is
built. Any exception after the request yields an empty card list. -/
def generate_activity_cards (fromiso : String → Option ℤ)
    (chat : CardRequest → Option String)
    (observations : List Observation) (context_cards : List ActivityCard)
    (start_time : Option ℤ) (prompt : Option String) :
    List ActivityCard × ℕ :=
  if observations.isEmpty then ([], 0)
  else
    let req : CardRequest :=
      { observations := observations,
        start_time := start_time,
        context_cards := context_cards.drop (context_cards.length - 3),
        prompt := prompt }
    match chat req with
    | none => ([], 1)
    | some response =>
        match parse_cards_from_text fromiso response start_time with
        | some cards => (cards, 1)
        | none => ([], 1)

/-- Round to the nearest integer, halves to even (the rounding of
Python's `round` and of `format(x, '.0f')`). -/
def roundHalfEven (q : ℚ) : ℤ :=
  if q - ⌊q⌋ < 1/2 then ⌊q⌋
  else if 1/2 < q - ⌊q⌋ then ⌊q⌋ + 1
  else if ⌊q⌋ % 2 = 0 then ⌊q⌋ else ⌊q⌋ + 1

/-- Python `round(x, 1)` (on exact rationals; the binary-float
representation error of the source's floats is not modelled). -/
def pyRound1 (q : ℚ) : ℚ := (roundHalfEven (10 * q) : ℚ) / 10

namespace Stats

/-- An `AppSite` as read back from storage by the stats collector:
well-typed name and numeric duration (`get_top_applications` does
arithmetic on `duration_seconds`). -/
structure AppSite where
  name : String
  duration_seconds : ℚ

/-- The slice of a persisted `ActivityCard` used by
`get_top_applications`. -/
structure Card where
  app_sites : List AppSite

/-- One entry of the `get_top_applications` result:
`{name, duration, percentage}`. -/
structure TopApp where
  name : String
  duration : ℚ
  percentage : ℚ

/-- The `app_duration` dict of `get_top_applications`: per-application
summed minutes (`duration_seconds / 60`) across all `app_sites`, in
insertion order. -/
def appDuration (cards : List Card) : List (String × ℚ) :=
  cards.foldl
    (fun acc card => card.app_sites.foldl
      (fun acc₂ site => addOverlap site.name (site.duration_seconds / 60) acc₂)
      acc)
    []

/-- `total_duration = sum(app_duration.values())`: the total over **all**
applications, computed before the top-N truncation. -/
def totalDuration (cards : List Card) : ℚ :=
  ((appDuration cards).map Prod.snd).sum

/-- `sorted(app_duration.items(), key=lambda x: -x[1])`: Python's sort is
stable, so it equals the stable insertion sort under
"value `≥` value". -/
def sortDesc (l : List (String × ℚ)) : List (String × ℚ) :=
  l.insertionSort (fun a b => b.2 ≤ a.2)

/-- `StatsCollector.get_top_applications` (stats_collector.py 236–273)
applied to the already-fetched card collection: accumulate per-app
minutes over all `app_sites`, stable-sort descending, truncate to
`limit`, and annotate each entry with the rounded percentage of
`totalDuration` (the all-apps total). -/
def get_top_applications (cards : List Card) (limit : ℕ) : List TopApp :=
  ((sortDesc (appDuration cards)).take limit).map (fun p =>
    { name := p.1,
      duration := pyRound1 p.2,
      percentage :=
        pyRound1 (if 0 < totalDuration cards then p.2 / totalDuration cards * 100 else 0) })

end Stats

/-! Statement-level vocabulary used by the theorems below. -/

/-- Decidable well-formedness of one observation entry: a dict whose
`start_ts`/`end_ts` (after the source's defaulting) survive `float()`. -/
def obsItemOk (duration : ℚ) : JValue → Bool
  | .obj fields =>
      (pyFloat ((dictGet "start_ts" fields).getD (.num 0))).isSome &&
      (pyFloat ((dictGet "end_ts" fields).getD (.num duration))).isSome
  | _ => false

/-- The number of positions at which a stream of app names switches,
starting from `a`. -/
def switches (a : String) : List String → ℕ
  | [] => 0
  | b :: rest => (if a = b then 0 else 1) + switches b rest

/-- Whether an observation interval overlaps a segment with positive
duration (the `overlap_end > overlap_start` test of the source). -/
def overlapsSeg (obsStart obsEnd : ℚ) (seg : TimeSegment) : Bool :=
  maxQ obsStart seg.start < minQ obsEnd seg.stop

/-- The total overlapped duration of an observation against a segment
list: `Σ max(0, min(ends) - max(starts))`. -/
def totalOverlap (obs : Observation) (segs : List TimeSegment) : ℚ :=
  (segs.map (fun seg =>
    maxQ 0 (minQ obs.end_ts seg.stop - maxQ obs.start_ts seg.start))).sum

/-- Order-preserving de-duplication relative to an already-seen set:
each name is kept at its first occurrence only. -/
def firstOccurAux (seen : List String) : List String → List String
  | [] => []
  | x :: xs =>
      if x ∈ seen then firstOccurAux seen xs
      else x :: firstOccurAux (x :: seen) xs

/-- Order-preserving de-duplication: each app name in the order of its
first occurrence. -/
def firstOccur (l : List String) : List String := firstOccurAux [] l

/-- Modelled from the spec: §6 asks extraction to "locate the first
balanced object". Scanning from the first `'{'`, take the prefix through
the brace that closes it (depth counting). This spec-side definition
exists only to be compared against the source's `extractJsonSpan`. -/
def balanceFrom : ℕ → List Char → Option (List Char)
  | _, [] => none
  | depth, c :: rest =>
      if c = '{' then (balanceFrom (depth + 1) rest).map (c :: ·)
      else if c = '}' then
        if depth = 1 then some [c]
        else if depth = 0 then none
        else (balanceFrom (depth - 1) rest).map (c :: ·)
      else if depth = 0 then none
      else (balanceFrom depth rest).map (c :: ·)

/-- Modelled from the spec: the first syntactically balanced object
embedded in the text (see `balanceFrom`). -/
def extractFirstBalanced (s : String) : Option String :=
  (balanceFrom 0 (s.toList.dropWhile (· ≠ '{'))).map String.mk

/-! ## Theorems -/

set_option maxRecDepth 2000

/-- Inversion of a successful `buildCard`: the scalar fields of the
produced card are exactly the source's per-field expressions. -/
theorem buildCard_fields (fromiso : String → Option ℤ) (anchor : Option ℤ)
    (fields : List (String × JValue)) (card : ActivityCard)
    (h : buildCard fromiso anchor (.obj fields) = some card) :
    card.category = (dictGet "category" fields).getD (.str "其他") ∧
    card.start_time = resolveCardStart fromiso fields anchor ∧
    card.end_time = resolveCardEnd fromiso fields := by
  cases h₁ : (getArr ((dictGet "app_sites" fields).getD (.arr []))).bind parseAppSites with
  | none => simp [buildCard, h₁] at h
  | some sites =>
    cases h₂ : (getArr ((dictGet "distractions" fields).getD (.arr []))).bind
        parseDistractions with
    | none => simp [buildCard, h₁, h₂] at h
    | some dists =>
      cases h₃ : pyFloat ((dictGet "productivity_score" fields).getD (.num 0)) with
      | none => simp [buildCard, h₁, h₂, h₃] at h
      | some score =>
        simp only [buildCard, h₁, h₂, h₃, Option.some.injEq] at h
        subst h
        exact ⟨rfl, rfl, rfl⟩

/-- C10 (confirmed): with an empty observation list the card-generation
entry point returns an empty card list and issues no completion request,
whatever the provider, context cards, anchor time and prompt are. -/
theorem C10_empty_observations_no_request (fromiso : String → Option ℤ)
    (chat : CardRequest → Option String) (context_cards : List ActivityCard)
    (start_time : Option ℤ) (prompt : Option String) :
    generate_activity_cards fromiso chat [] context_cards start_time prompt
      = ([], 0) := rfl

/-- C1 (corrected), counterexample: on the claim's own input — the
malformed text `"I think the user was coding. no json here"` (which
contains no JSON object) with duration 30 — the source returns an empty
observation list, not the single synthetic `[0, 30]` observation the
claim requires. -/
theorem C1_counterexample :
    parse_observations_from_text "I think the user was coding. no json here" 30
      = some [] := rfl

/-- C1 (corrected), amended: the synthetic fallback observation
`[0, duration]` carrying the 500-character-truncated raw response is
produced exactly when a candidate brace span is located but fails JSON
decoding; raw text containing no `'{'` at all instead yields an empty
observation list. -/
theorem C1_fallback_only_on_decode_error (text : String) (d : ℚ) :
    ('{' ∉ text.toList → parse_observations_from_text text d = some []) ∧
    (∀ s, extractJsonSpan text = some s → jsonLoads s = none →
      parse_observations_from_text text d =
        some [{ start_ts := 0, end_ts := d, text := .str (text.take 500),
                app_name := none, window_title := none }]) := by
  constructor
  · intro h
    have h1 : List.findIdx? (fun x => decide (x = '{')) text.data = none := by
      rw [List.findIdx?_eq_none_iff]
      intro x hx
      simp only [decide_eq_false_iff_not]
      exact fun hx' => h (hx' ▸ hx)
    simp [parse_observations_from_text, extractJsonSpan, h1]
  · intro s hs hj
    simp [parse_observations_from_text, hs, hj]

/-- Witness for `C1_fallback_only_on_decode_error`, instantiated at a
brace-free text and at a text whose greedy span fails to decode. -/
theorem C1_witness :
    parse_observations_from_text "plain prose" 7 = some [] ∧
    parse_observations_from_text "x \x7b\"a\": \x7d y" 7 =
      some [{ start_ts := 0, end_ts := 7,
              text := .str ("x \x7b\"a\": \x7d y".take 500),
              app_name := none, window_title := none }] :=
  ⟨(C1_fallback_only_on_decode_error "plain prose" 7).1 (by decide),
   (C1_fallback_only_on_decode_error "x \x7b\"a\": \x7d y" 7).2 "\x7b\"a\": \x7d"
     (by decide) (by rw [← Option.isNone_iff_eq_none]; decide)⟩

/-- C8 (corrected), counterexample: a card entry whose `category` string
is unrecognized (`"Foobar"` is not one of the enum values) is stored
verbatim; it is not coerced to `Other` (`"其他"`). -/
theorem C8_counterexample :
    (buildCard (fun _ => none) none
        (.obj [("category", .str "Foobar"), ("title", .str "t")])).map
      ActivityCard.category = some (.str "Foobar") ∧
    JValue.str "Foobar" ≠ JValue.str "其他" := by
  refine ⟨rfl, fun h => ?_⟩
  injection h with h'
  exact absurd h' (by decide)

/-- C8 (corrected), amended: `category` defaults to `其他` (Other) only
when the field is missing; any present value — recognized or not — is
stored verbatim on the card. -/
theorem C8_category_passthrough (fromiso : String → Option ℤ)
    (anchor : Option ℤ) (fields : List (String × JValue)) (card : ActivityCard)
    (h : buildCard fromiso anchor (.obj fields) = some card) :
    (dictGet "category" fields = none → card.category = .str "其他") ∧
    (∀ v, dictGet "category" fields = some v → card.category = v) := by
  have hc := (buildCard_fields fromiso anchor fields card h).1
  constructor
  · intro hm; rw [hc, hm]; rfl
  · intro v hv; rw [hc, hv]; rfl

/-- Witness for `C8_category_passthrough`: one entry without a
`category` key and one with an unrecognized value. -/
theorem C8_witness :
    (buildCard (fun _ => none) none (.obj [("title", .str "t")])).map
      ActivityCard.category = some (.str "其他") ∧
    (buildCard (fun _ => none) none
        (.obj [("category", .str "Gaming")])).map
      ActivityCard.category = some (.str "Gaming") := by
  have h1 : buildCard (fun _ => none) none (.obj [("title", .str "t")]) =
      some { category := .str "其他", title := .str "t", summary := .str "",
             start_time := none, end_time := none, app_sites := [],
             distractions := [], productivity_score := 0 } := rfl
  have h2 : buildCard (fun _ => none) none (.obj [("category", .str "Gaming")]) =
      some { category := .str "Gaming", title := .str "未命名活动",
             summary := .str "", start_time := none, end_time := none,
             app_sites := [], distractions := [], productivity_score := 0 } := rfl
  constructor
  · rw [h1]
    exact congrArg some
      ((C8_category_passthrough (fun _ => none) none [("title", .str "t")] _ h1).1 rfl)
  · rw [h2]
    exact congrArg some
      ((C8_category_passthrough (fun _ => none) none [("category", .str "Gaming")] _ h2).2
        (.str "Gaming") rfl)

/-- C7 (confirmed): per parsed card entry, `start_time` falls back to the
pipeline-supplied anchor when absent/falsy or when ISO parsing fails,
while `end_time` falls back to absent in the same situations — never to
the anchor. -/
theorem C7_time_fallbacks (fromiso : String → Option ℤ) (anchor : Option ℤ)
    (fields : List (String × JValue)) (card : ActivityCard)
    (h : buildCard fromiso anchor (.obj fields) = some card) :
    (pyTruthy (dictGet "start_time" fields) = false → card.start_time = anchor) ∧
    (∀ s, dictGet "start_time" fields = some (.str s) →
      fromiso (s.replace "Z" "+00:00") = none → card.start_time = anchor) ∧
    (pyTruthy (dictGet "end_time" fields) = false → card.end_time = none) ∧
    (∀ s, dictGet "end_time" fields = some (.str s) →
      fromiso (s.replace "Z" "+00:00") = none → card.end_time = none) := by
  obtain ⟨-, hs, he⟩ := buildCard_fields fromiso anchor fields card h
  refine ⟨fun hf => ?_, fun s hv hp => ?_, fun hf => ?_, fun s hv hp => ?_⟩
  · rw [hs]; simp [resolveCardStart, hf]
  · rw [hs]; simp [resolveCardStart, hv, hp]
  · rw [he]; simp [resolveCardEnd, hf]
  · rw [he]; simp [resolveCardEnd, hv, hp]

/-- Witness for `C7_time_fallbacks`: the spec's round-trip instance — an
entry with `start_time` present (but unparseable by the given parser),
`end_time` absent, anchor supplied — resolves `start_time` to the anchor
and `end_time` to absent. -/
theorem C7_witness :
    (buildCard (fun _ => none) (some 5)
        (.obj [("start_time", .str "2024-01-01T10:00:00")])).map
      ActivityCard.start_time = some (some 5) ∧
    (buildCard (fun _ => none) (some 5)
        (.obj [("start_time", .str "2024-01-01T10:00:00")])).map
      ActivityCard.end_time = some none := by
  have h : buildCard (fun _ => none) (some 5)
      (.obj [("start_time", .str "2024-01-01T10:00:00")]) =
      some { category := .str "其他", title := .str "未命名活动",
             summary := .str "", start_time := some 5, end_time := none,
             app_sites := [], distractions := [], productivity_score := 0 } := rfl
  have hc := C7_time_fallbacks (fun _ => none) (some 5)
    [("start_time", .str "2024-01-01T10:00:00")] _ h
  constructor
  · rw [h]
    exact congrArg some (hc.2.1 "2024-01-01T10:00:00" rfl rfl)
  · rw [h]
    exact congrArg some (hc.2.2.1 rfl)

/-- C2 (corrected), counterexample: a batch holding one entry with a
non-numeric `start_ts` next to one well-formed entry parses to `none`
(an uncaught `ValueError` escapes), and the calling pipeline therefore
returns the empty batch — the well-formed entry is lost too. -/
theorem C2_counterexample :
    parse_observations_from_text
      "\x7b\"observations\": [\x7b\"start_ts\": \"abc\", \"end_ts\": 5, \"text\": \"bad\"\x7d, \x7b\"start_ts\": 0, \"end_ts\": 5, \"text\": \"good\"\x7d]\x7d"
      30 = none ∧
    transcribe_postprocess
      "\x7b\"observations\": [\x7b\"start_ts\": \"abc\", \"end_ts\": 5, \"text\": \"bad\"\x7d, \x7b\"start_ts\": 0, \"end_ts\": 5, \"text\": \"good\"\x7d]\x7d"
      30 [] = [] := by
  exact ⟨rfl, rfl⟩

/-- C2 (corrected), amended: entries with *missing* `start_ts`/`end_ts`
are kept (defaulted to `0`/`duration`), and a batch of entries whose
fields all coerce through `float()` is fully retained; but one entry
carrying a non-coercible field (or a non-dict entry) aborts the whole
batch. -/
theorem C2_bad_entry_aborts_batch (d : ℚ) (items : List JValue) :
    ((∀ i ∈ items, obsItemOk d i = true) →
      ∃ l, parseObsItems d items = some l ∧ l.length = items.length) ∧
    (∀ i ∈ items, obsItemOk d i = false → parseObsItems d items = none) := by
  induction items with
  | nil =>
    exact ⟨fun _ => ⟨[], rfl, rfl⟩, fun i hi => absurd hi (List.not_mem_nil i)⟩
  | cons x rest ih =>
    constructor
    · intro hall
      have hx := hall x (List.mem_cons_self x rest)
      obtain ⟨l, hl, hlen⟩ :=
        ih.1 (fun i hi => hall i (List.mem_cons_of_mem x hi))
      cases x with
      | obj fields =>
        simp only [obsItemOk, Bool.and_eq_true, Option.isSome_iff_exists] at hx
        obtain ⟨⟨s, hs⟩, ⟨e, he⟩⟩ := hx
        refine ⟨{ start_ts := s, end_ts := e,
                  text := (dictGet "text" fields).getD (.str ""),
                  app_name := dictGetOpt "app_name" fields,
                  window_title := dictGetOpt "window_title" fields } :: l,
                by simp [parseObsItems, hs, he, hl], by simp [hlen]⟩
      | null => simp [obsItemOk] at hx
      | bool b => simp [obsItemOk] at hx
      | num q => simp [obsItemOk] at hx
      | str s => simp [obsItemOk] at hx
      | arr l' => simp [obsItemOk] at hx
    · intro i hi hbad
      rcases List.mem_cons.mp hi with hhead | htail
      · subst hhead
        cases i with
        | obj fields =>
          cases hs : pyFloat ((dictGet "start_ts" fields).getD (.num 0)) with
          | none => simp [parseObsItems, hs]
          | some s =>
            cases he : pyFloat ((dictGet "end_ts" fields).getD (.num d)) with
            | none => simp [parseObsItems, hs, he]
            | some e => simp [obsItemOk, hs, he] at hbad
        | null => rfl
        | bool b => rfl
        | num q => rfl
        | str s => rfl
        | arr l' => rfl
      · have hrest := ih.2 i htail hbad
        cases x with
        | obj fields => simp [parseObsItems, hrest]
        | null => rfl
        | bool b => rfl
        | num q => rfl
        | str s => rfl
        | arr l' => rfl

/-- Witness for `C2_bad_entry_aborts_batch`: a fully well-formed pair of
entries is fully kept; inserting one entry with a non-numeric
`start_ts` makes the whole parse fail. -/
theorem C2_witness :
    (∃ l, parseObsItems 30
        [.obj [("start_ts", .num 0), ("end_ts", .num 5), ("text", .str "a")],
         .obj [("text", .str "b")]] = some l ∧ l.length = 2) ∧
    parseObsItems 30
        [.obj [("start_ts", .num 0), ("end_ts", .num 5), ("text", .str "a")],
         .obj [("start_ts", .str "abc"), ("text", .str "b")]] = none := by
  refine ⟨?_, ?_⟩
  · exact (C2_bad_entry_aborts_batch 30
      [.obj [("start_ts", .num 0), ("end_ts", .num 5), ("text", .str "a")],
       .obj [("text", .str "b")]]).1 (by decide)
  · exact (C2_bad_entry_aborts_batch 30
      [.obj [("start_ts", .num 0), ("end_ts", .num 5), ("text", .str "a")],
       .obj [("start_ts", .str "abc"), ("text", .str "b")]]).2
      (.obj [("start_ts", .str "abc"), ("text", .str "b")])
      (List.mem_cons_of_mem _ (List.mem_cons_self _ _)) (by decide)

/-- C4 (corrected), counterexample: two consecutive samples with the same
`app_name` but different `window_title`s collapse into a single segment
(keeping the first title), whereas the claim requires them to lie in two
different segments. -/
theorem C4_counterexample :
    buildTimeSegments [⟨"A", "t1", 0⟩, ⟨"A", "t2", 5⟩] 10 =
      [{ start := 0, stop := 10, app_name := "A", window_title := "t1" }] ∧
    (buildTimeSegments [⟨"A", "t1", 0⟩, ⟨"A", "t2", 5⟩] 10).length = 1 := by
  exact ⟨rfl, rfl⟩

/-- The segment loop with a tracked (truthy) current app: one segment per
app switch, plus the closing segment whose end is the overall duration. -/
theorem segLoop_spec (d : ℚ) (recs : List WindowRecord) :
    ∀ (a t : String) (s : ℚ), a ≠ "" → (∀ x ∈ recs, x.app_name ≠ "") →
    (segLoop d (some a) t s recs).length
        = switches a (recs.map (·.app_name)) + 1 ∧
    ∃ pre seg, segLoop d (some a) t s recs = pre ++ [seg] ∧ seg.stop = d := by
  induction recs with
  | nil =>
    intro a t s ha _
    refine ⟨by simp [segLoop, ha, switches], [], ⟨s, d, a, t⟩, by simp [segLoop, ha], rfl⟩
  | cons r rest ih =>
    intro a t s ha hall
    have hr : r.app_name ≠ "" := hall r (List.mem_cons_self r rest)
    have htail : ∀ x ∈ rest, x.app_name ≠ "" :=
      fun x hx => hall x (List.mem_cons_of_mem r hx)
    by_cases hsame : a = r.app_name
    · subst hsame
      have hL : segLoop d (some r.app_name) t s (r :: rest)
          = segLoop d (some r.app_name) t s rest := by
        simp [segLoop]
      have h1 := ih r.app_name t s ha htail
      refine ⟨?_, ?_⟩
      · rw [hL, h1.1, List.map_cons]
        simp [switches]
      · obtain ⟨pre, seg, hps, hstop⟩ := h1.2
        exact ⟨pre, seg, by rw [hL, hps], hstop⟩
    · have hL : segLoop d (some a) t s (r :: rest)
          = ⟨s, r.timestamp, a, t⟩ ::
            segLoop d (some r.app_name) r.window_title r.timestamp rest := by
        simp [segLoop, hsame, ha]
      have h1 := ih r.app_name r.window_title r.timestamp hr htail
      refine ⟨?_, ?_⟩
      · rw [hL, List.length_cons, h1.1, List.map_cons]
        simp only [switches, if_neg hsame]
        omega
      · obtain ⟨pre, seg, hps, hstop⟩ := h1.2
        exact ⟨⟨s, r.timestamp, a, t⟩ :: pre, seg, by rw [hL, hps]; rfl, hstop⟩

/-- C4 (corrected), amended: segment boundaries occur exactly at
`app_name` changes — `window_title` changes alone never open a segment —
so the number of segments is the number of app switches plus one (for
nonempty records with truthy app names), and the final segment's end is
forced to the given duration. -/
theorem C4_segments_follow_app_changes (r : WindowRecord)
    (rest : List WindowRecord) (d : ℚ)
    (h : ∀ x ∈ r :: rest, x.app_name ≠ "") :
    (buildTimeSegments (r :: rest) d).length
        = switches r.app_name (rest.map (·.app_name)) + 1 ∧
    ∃ pre seg, buildTimeSegments (r :: rest) d = pre ++ [seg] ∧ seg.stop = d := by
  have hr : r.app_name ≠ "" := h r (List.mem_cons_self r rest)
  have htail : ∀ x ∈ rest, x.app_name ≠ "" :=
    fun x hx => h x (List.mem_cons_of_mem r hx)
  have hstep : buildTimeSegments (r :: rest) d
      = segLoop d (some r.app_name) r.window_title r.timestamp rest := by
    simp [buildTimeSegments, segLoop]
  rw [hstep]
  exact segLoop_spec d rest r.app_name r.window_title r.timestamp hr htail

/-- Witness for `C4_segments_follow_app_changes` on a three-sample
record list with one app switch. -/
theorem C4_witness :
    (buildTimeSegments [⟨"A", "t1", 0⟩, ⟨"B", "t2", 4⟩, ⟨"B", "t3", 6⟩] 10).length
        = switches "A" ["B", "B"] + 1 ∧
    ∃ pre seg,
      buildTimeSegments [⟨"A", "t1", 0⟩, ⟨"B", "t2", 4⟩, ⟨"B", "t3", 6⟩] 10
        = pre ++ [seg] ∧ seg.stop = 10 :=
  C4_segments_follow_app_changes ⟨"A", "t1", 0⟩ [⟨"B", "t2", 4⟩, ⟨"B", "t3", 6⟩] 10
    (by decide)

/-- The greedy span extraction on a response of the form
`prose ++ object ++ prose`: when the leading prose has no `'{'` and the
trailing prose has no `'}'`, the span is exactly the embedded object. -/
theorem extractJsonSpan_embed (pre core post : String)
    (h1 : '{' ∉ pre.toList) (h2 : '}' ∉ post.toList)
    (h3 : core.toList.head? = some '{') (h4 : core.toList.getLast? = some '}') :
    extractJsonSpan (pre ++ core ++ post) = some core := by
  have htl : (pre ++ core ++ post).toList
      = pre.toList ++ (core.toList ++ post.toList) := by
    simp [String.toList, List.append_assoc]
  obtain ⟨cs, hc⟩ : ∃ cs, core.toList = '{' :: cs := by
    cases hcl : core.toList with
    | nil => rw [hcl] at h3; exact absurd h3 (by simp)
    | cons c cs =>
      rw [hcl] at h3
      simp only [List.head?_cons, Option.some.injEq] at h3
      exact ⟨cs, by rw [h3]⟩
  obtain ⟨cs', hr⟩ : ∃ cs', core.toList.reverse = '}' :: cs' := by
    have hrevC : core.toList.reverse.head? = some '}' := by
      rw [List.head?_reverse]; exact h4
    cases hcl : core.toList.reverse with
    | nil => rw [hcl] at hrevC; exact absurd hrevC (by simp)
    | cons c cs' =>
      rw [hcl] at hrevC
      simp only [List.head?_cons, Option.some.injEq] at hrevC
      exact ⟨cs', by rw [hrevC]⟩
  have hClen : 2 ≤ core.toList.length := by
    rcases cs.eq_nil_or_concat with hnil | ⟨l, b, hcs⟩
    · exfalso
      rw [hc, hnil] at hr
      simp only [List.reverse_cons, List.reverse_nil, List.nil_append,
        List.cons.injEq] at hr
      exact absurd hr.1 (by decide)
    · rw [hc, hcs]
      simp
  have hPnone : pre.toList.findIdx? (fun x => decide (x = '{')) = none := by
    rw [List.findIdx?_eq_none_iff]
    intro x hx
    simp only [decide_eq_false_iff_not]
    exact fun hx' => h1 (hx' ▸ hx)
  have hQnone : post.toList.reverse.findIdx? (fun x => decide (x = '}')) = none := by
    rw [List.findIdx?_eq_none_iff]
    intro x hx
    simp only [decide_eq_false_iff_not]
    exact fun hx' => h2 (hx' ▸ (List.mem_reverse.mp hx))
  have hfi : (pre ++ core ++ post).toList.findIdx? (· = '{')
      = some pre.toList.length := by
    rw [htl, List.findIdx?_append, hPnone, Option.none_or,
      List.findIdx?_append, hc, List.findIdx?_cons]
    simp
  have hlast : lastIdxOf '}' (pre ++ core ++ post).toList
      = some (pre.toList.length + core.toList.length - 1) := by
    unfold lastIdxOf
    rw [htl]
    have hrev : (pre.toList ++ (core.toList ++ post.toList)).reverse
        = post.toList.reverse ++ (core.toList.reverse ++ pre.toList.reverse) := by
      simp [List.reverse_append]
    rw [hrev, List.findIdx?_append, hQnone, Option.none_or,
      List.findIdx?_append, hr, List.findIdx?_cons]
    simp only [decide_True, if_true, Option.or_some, Option.map_some,
      Option.map_some', Option.some.injEq, List.length_append,
      List.length_reverse]
    omega
  have hij : pre.toList.length < pre.toList.length + core.toList.length - 1 := by
    omega
  have htake : pre.toList.length + core.toList.length - 1 - pre.toList.length + 1
      = core.toList.length := by omega
  simp only [extractJsonSpan, hfi, hlast]
  rw [if_pos hij, htl, htake, List.drop_left' rfl, List.take_left' rfl]
  rfl

/-- C3 (corrected), counterexample: the response embeds a balanced,
individually parseable observations object, but is followed by prose
containing a further `'}'`; the claim requires the first balanced object
to be located and parsed (yielding the entry `(1, 2, "t")`), while the
source's greedy span fails to decode and the synthetic whole-text
fallback is produced instead. -/
theorem C3_counterexample :
    extractFirstBalanced
        "ok \x7b\"observations\": [\x7b\"start_ts\": 1, \"end_ts\": 2, \"text\": \"t\"\x7d]\x7d done\x7d"
      = some "\x7b\"observations\": [\x7b\"start_ts\": 1, \"end_ts\": 2, \"text\": \"t\"\x7d]\x7d" ∧
    (jsonLoads
        "\x7b\"observations\": [\x7b\"start_ts\": 1, \"end_ts\": 2, \"text\": \"t\"\x7d]\x7d").isSome
      = true ∧
    parse_observations_from_text
        "ok \x7b\"observations\": [\x7b\"start_ts\": 1, \"end_ts\": 2, \"text\": \"t\"\x7d]\x7d done\x7d"
        30
      = some [{ start_ts := 0, end_ts := 30,
                text := .str ("ok \x7b\"observations\": [\x7b\"start_ts\": 1, \"end_ts\": 2, \"text\": \"t\"\x7d]\x7d done\x7d".take 500),
                app_name := none, window_title := none }] := by
  exact ⟨rfl, rfl, rfl⟩

/-- C3 (corrected), amended: extraction spans greedily from the first
`'{'` to the last `'}'` of the whole response. An embedded object is
located — and, when it decodes, parsed — whenever the prose before it
has no `'{'` and the prose after it has no `'}'`; a `'}'` in the
trailing prose instead extends the span and the decode fails
(see the counterexample). -/
theorem C3_first_to_last_brace_span (pre core post : String)
    (h1 : '{' ∉ pre.toList) (h2 : '}' ∉ post.toList)
    (h3 : core.toList.head? = some '{') (h4 : core.toList.getLast? = some '}') :
    extractJsonSpan (pre ++ core ++ post) = some core ∧
    (∀ d : ℚ, (jsonLoads core).isSome →
      parse_observations_from_text (pre ++ core ++ post) d
        = parse_observations_from_text core d) ∧
    (∀ (fromiso : String → Option ℤ) (anchor : Option ℤ),
      (jsonLoads core).isSome →
      parse_cards_from_text fromiso (pre ++ core ++ post) anchor
        = parse_cards_from_text fromiso core anchor) := by
  have hspan := extractJsonSpan_embed pre core post h1 h2 h3 h4
  have hself : extractJsonSpan core = some core := by
    have := extractJsonSpan_embed "" core ""
      (by simp [String.toList]) (by simp [String.toList]) h3 h4
    rwa [String.empty_append, String.append_empty] at this
  refine ⟨hspan, fun d hs => ?_, fun fromiso anchor hs => ?_⟩
  · obtain ⟨v, hv⟩ := Option.isSome_iff_exists.mp hs
    simp only [parse_observations_from_text, hspan, hself, hv]
    cases v <;> rfl
  · obtain ⟨v, hv⟩ := Option.isSome_iff_exists.mp hs
    simp only [parse_cards_from_text, hspan, hself, hv]

/-- Witness for `C3_first_to_last_brace_span`: an object surrounded by
prose whose trailing part contains a `'{'` but no `'}'`. -/
theorem C3_witness :
    extractJsonSpan ("ok " ++ "\x7b\"observations\": []\x7d" ++ " \x7bdone")
      = some "\x7b\"observations\": []\x7d" ∧
    parse_observations_from_text ("ok " ++ "\x7b\"observations\": []\x7d" ++ " \x7bdone") 30
      = parse_observations_from_text "\x7b\"observations\": []\x7d" 30 :=
  ⟨(C3_first_to_last_brace_span "ok " "\x7b\"observations\": []\x7d" " \x7bdone"
      (by decide) (by decide) (by decide) (by decide)).1,
   (C3_first_to_last_brace_span "ok " "\x7b\"observations\": []\x7d" " \x7bdone"
      (by decide) (by decide) (by decide) (by decide)).2.1 30 (by decide)⟩

/-- Keys after a dict-accumulate step: unchanged when the key is
present, appended otherwise. -/
theorem keys_addOverlap (k : String) (d : ℚ) (l : List (String × ℚ)) :
    (addOverlap k d l).map Prod.fst =
      if k ∈ l.map Prod.fst then l.map Prod.fst else l.map Prod.fst ++ [k] := by
  induction l with
  | nil => simp [addOverlap]
  | cons p rest ih =>
    obtain ⟨k', v⟩ := p
    by_cases hk : k' = k
    · subst hk
      simp [addOverlap]
    · simp only [addOverlap, if_neg hk, List.map_cons, ih]
      by_cases hm : k ∈ rest.map Prod.fst
      · rw [if_pos hm, if_pos (List.mem_cons.mpr (Or.inr hm))]
      · have hnotin : k ∉ k' :: rest.map Prod.fst := by
          intro hc
          rcases List.mem_cons.mp hc with h | h
          · exact hk h.symm
          · exact hm h
        rw [if_neg hm, if_neg hnotin, List.cons_append]

/-- `firstOccurAux` depends on the seen set only through membership. -/
theorem firstOccurAux_congr (l : List String) : ∀ s₁ s₂ : List String,
    (∀ x, x ∈ s₁ ↔ x ∈ s₂) → firstOccurAux s₁ l = firstOccurAux s₂ l := by
  induction l with
  | nil => intro _ _ _; rfl
  | cons x xs ih =>
    intro s₁ s₂ h
    by_cases hx : x ∈ s₁
    · simp [firstOccurAux, hx, (h x).mp hx, ih _ _ h]
    · have hx₂ : x ∉ s₂ := fun hh => hx ((h x).mpr hh)
      simp only [firstOccurAux, if_neg hx, if_neg hx₂, List.cons.injEq, true_and]
      exact ih _ _ (fun y => by simp [List.mem_cons, h y])

/-- Every element kept by `firstOccurAux` comes from the input list. -/
theorem firstOccurAux_subset (l : List String) : ∀ (seen : List String)
    (x : String), x ∈ firstOccurAux seen l → x ∈ l := by
  induction l with
  | nil => intro _ x hx; exact absurd hx (List.not_mem_nil x)
  | cons y ys ih =>
    intro seen x hx
    by_cases hy : y ∈ seen
    · rw [firstOccurAux, if_pos hy] at hx
      exact List.mem_cons_of_mem y (ih _ x hx)
    · rw [firstOccurAux, if_neg hy] at hx
      rcases List.mem_cons.mp hx with h | h
      · exact h ▸ List.mem_cons_self y ys
      · exact List.mem_cons_of_mem y (ih _ x h)

/-- `firstOccurAux` produces nothing exactly when everything was already
seen. -/
theorem firstOccurAux_eq_nil (l : List String) : ∀ seen : List String,
    firstOccurAux seen l = [] ↔ ∀ x ∈ l, x ∈ seen := by
  induction l with
  | nil => intro seen; simp [firstOccurAux]
  | cons y ys ih =>
    intro seen
    by_cases hy : y ∈ seen
    · rw [firstOccurAux, if_pos hy, ih seen]
      simp [hy]
    · rw [firstOccurAux, if_neg hy]
      simp [hy]

/-- The accumulated duration dict lists the apps in the chronological
order of their first positively-overlapping segment. -/
theorem appDurTitles_fold_keys (s e : ℚ) (segs : List TimeSegment) :
    ∀ acc : List (String × ℚ) × List (String × String),
    ((segs.foldl (durStep s e) acc).1).map Prod.fst
      = acc.1.map Prod.fst ++
        firstOccurAux (acc.1.map Prod.fst)
          ((segs.filter (fun seg => overlapsSeg s e seg)).map (·.app_name)) := by
  induction segs with
  | nil => intro acc; simp [firstOccurAux]
  | cons seg rest ih =>
    intro acc
    rw [List.foldl_cons]
    cases hov : overlapsSeg s e seg with
    | false =>
      have hstep : durStep s e acc seg = acc := by
        unfold overlapsSeg at hov
        simp only [decide_eq_false_iff_not] at hov
        simp [durStep, hov]
      have hfil : (seg :: rest).filter (fun sg => overlapsSeg s e sg)
          = rest.filter (fun sg => overlapsSeg s e sg) := by
        rw [List.filter_cons, hov]
        simp
      rw [hstep, ih acc, hfil]
    | true =>
      have hlt : maxQ s seg.start < minQ e seg.stop := by
        unfold overlapsSeg at hov
        simpa using hov
      have hstep : durStep s e acc seg
          = (addOverlap seg.app_name (minQ e seg.stop - maxQ s seg.start) acc.1,
             addTitle seg.app_name seg.window_title acc.2) := by
        simp [durStep, hlt]
      have hfil : (seg :: rest).filter (fun sg => overlapsSeg s e sg)
          = seg :: rest.filter (fun sg => overlapsSeg s e sg) := by
        rw [List.filter_cons, hov]
        simp
      rw [hstep, ih, hfil, List.map_cons]
      simp only [keys_addOverlap, firstOccurAux]
      by_cases hm : seg.app_name ∈ acc.1.map Prod.fst
      · rw [if_pos hm, if_pos hm]
      · rw [if_neg hm, if_neg hm, List.append_assoc, List.singleton_append]
        congr 1
        congr 1
        exact firstOccurAux_congr _ _ _
          (fun y => by simp [List.mem_append, List.mem_cons, or_comm])

/-- The keys of the per-observation duration dict, in order: the first
occurrences of the app names of positively-overlapping segments, taken
chronologically. -/
theorem appDurTitles_keys (s e : ℚ) (segs : List TimeSegment) :
    ((appDurTitles s e segs).1).map Prod.fst
      = firstOccur ((segs.filter (fun seg => overlapsSeg s e seg)).map
          (·.app_name)) := by
  have := appDurTitles_fold_keys s e segs ([], [])
  simpa [appDurTitles, firstOccur] using this

/-- The scan underlying Python's `max(..., key=...)`: the result is
either the initial best (and nothing in the list beats it), or an
element of the list that strictly beats everything before it and is not
beaten by anything after it. -/
theorem maxKeyGo_spec (l : List (String × ℚ)) : ∀ bk : String, ∀ bv : ℚ,
    (maxKeyGo bk bv l = bk ∧ ∀ p ∈ l, p.2 ≤ bv) ∨
    (∃ v l₁ l₂, l = l₁ ++ (maxKeyGo bk bv l, v) :: l₂ ∧ bv < v ∧
      (∀ p ∈ l₁, p.2 < v) ∧ (∀ p ∈ l₂, p.2 ≤ v)) := by
  induction l with
  | nil => intro bk bv; exact Or.inl ⟨rfl, by simp⟩
  | cons p rest ih =>
    intro bk bv
    obtain ⟨k, v₁⟩ := p
    by_cases hlt : bv < v₁
    · have hred : maxKeyGo bk bv ((k, v₁) :: rest) = maxKeyGo k v₁ rest := by
        simp [maxKeyGo, hlt]
      rcases ih k v₁ with ⟨heq, hle⟩ | ⟨v, l₁, l₂, hsplit, hv, hl₁, hl₂⟩
      · right
        exact ⟨v₁, [], rest, by rw [hred, heq]; simp, hlt, by simp, hle⟩
      · right
        refine ⟨v, (k, v₁) :: l₁, l₂,
          by rw [hred, List.cons_append]; exact congrArg (List.cons (k, v₁)) hsplit,
          lt_trans hlt hv, ?_, hl₂⟩
        intro q hq
        rcases List.mem_cons.mp hq with h | h
        · rw [h]; exact hv
        · exact hl₁ q h
    · have hred : maxKeyGo bk bv ((k, v₁) :: rest) = maxKeyGo bk bv rest := by
        simp [maxKeyGo, hlt]
      rcases ih bk bv with ⟨heq, hle⟩ | ⟨v, l₁, l₂, hsplit, hv, hl₁, hl₂⟩
      · left
        refine ⟨by rw [hred, heq], ?_⟩
        intro q hq
        rcases List.mem_cons.mp hq with h | h
        · rw [h]; exact not_lt.mp hlt
        · exact hle q h
      · right
        refine ⟨v, (k, v₁) :: l₁, l₂,
          by rw [hred, List.cons_append]; exact congrArg (List.cons (k, v₁)) hsplit,
          hv, ?_, hl₂⟩
        intro q hq
        rcases List.mem_cons.mp hq with h | h
        · rw [h]; exact lt_of_le_of_lt (not_lt.mp hlt) hv
        · exact hl₁ q h

/-- Python `max(d, key=d.get)` over the insertion-ordered dict returns
the first key attaining the maximal value: everything stored before it
is strictly smaller and everything after it is no larger — on a tie the
earlier-inserted key wins. -/
theorem pyMaxKey_spec (l : List (String × ℚ)) (a : String)
    (h : pyMaxKey l = some a) :
    ∃ v l₁ l₂, l = l₁ ++ (a, v) :: l₂ ∧
      (∀ p ∈ l₁, p.2 < v) ∧ (∀ p ∈ l₂, p.2 ≤ v) := by
  cases l with
  | nil => cases h
  | cons p rest =>
    obtain ⟨k, v₀⟩ := p
    simp only [pyMaxKey, Option.some.injEq] at h
    rcases maxKeyGo_spec rest k v₀ with ⟨heq, hle⟩ | ⟨v, l₁, l₂, hsplit, hv, hl₁, hl₂⟩
    · have hak : a = k := by rw [← h, heq]
      exact ⟨v₀, [], rest, by rw [hak]; simp, by simp, hle⟩
    · rw [h] at hsplit
      refine ⟨v, (k, v₀) :: l₁, l₂,
        by rw [List.cons_append]; exact congrArg (List.cons (k, v₀)) hsplit,
        ?_, hl₂⟩
      intro q hq
      rcases List.mem_cons.mp hq with hq' | hq'
      · rw [hq']; exact hv
      · exact hl₁ q hq'

/-- An observation's total overlapped duration vanishes exactly when no
segment overlaps it positively. -/
theorem maxQ_eq (a b : ℚ) : maxQ a b = max a b := by
  rw [maxQ, max_def]

theorem minQ_eq (a b : ℚ) : minQ a b = min a b := by
  rw [minQ, min_def]

theorem totalOverlap_eq_zero_iff (obs : Observation) (segs : List TimeSegment) :
    totalOverlap obs segs = 0 ↔
      ∀ seg ∈ segs, overlapsSeg obs.start_ts obs.end_ts seg = false := by
  unfold totalOverlap
  induction segs with
  | nil => simp
  | cons seg rest ih =>
    simp only [List.map_cons, List.sum_cons]
    have h1 : 0 ≤ maxQ 0 (minQ obs.end_ts seg.stop - maxQ obs.start_ts seg.start) := by
      rw [maxQ_eq]
      exact le_max_left _ _
    have h2 : 0 ≤ (rest.map (fun sg =>
        maxQ 0 (minQ obs.end_ts sg.stop - maxQ obs.start_ts sg.start))).sum := by
      apply List.sum_nonneg
      intro x hx
      obtain ⟨sg, _, hsg⟩ := List.mem_map.mp hx
      rw [← hsg, maxQ_eq]
      exact le_max_left _ _
    rw [add_eq_zero_iff_of_nonneg h1 h2]
    constructor
    · rintro ⟨hh, ht⟩ sg hsg
      rcases List.mem_cons.mp hsg with h | h
      · subst h
        unfold overlapsSeg
        simp only [decide_eq_false_iff_not, not_lt]
        rw [maxQ_eq, minQ_eq, maxQ_eq] at hh
        have := max_eq_left_iff.mp hh
        rw [minQ_eq, maxQ_eq]
        linarith
      · exact ih.mp ht sg h
    · intro hall
      refine ⟨?_, ih.mpr (fun sg hsg => hall sg (List.mem_cons_of_mem seg hsg))⟩
      have := hall seg (List.mem_cons_self seg rest)
      unfold overlapsSeg at this
      simp only [decide_eq_false_iff_not, not_lt] at this
      rw [minQ_eq, maxQ_eq] at this
      rw [maxQ_eq, minQ_eq, maxQ_eq]
      exact max_eq_left_iff.mpr (by linarith)

/-- C5 (confirmed): the attribution is deterministic and breaks exact
ties in favour of the chronologically earliest app — the accumulated
dict lists apps in first-positive-overlap (segment) order, and Python's
`max` returns the first key attaining the maximum; on the claim's own
example (`[(0,10,"A"),(10,20,"B")]`, observation `(5,15)`, overlaps
`5 = 5`) the attributed app is `"A"`. -/
theorem C5_tie_break_earliest :
    (overlayOne
        [{ start := 0, stop := 10, app_name := "A", window_title := "ta" },
         { start := 10, stop := 20, app_name := "B", window_title := "tb" }]
        { start_ts := 5, end_ts := 15, text := .str "X",
          app_name := some (.str "X"), window_title := none }).app_name
      = some (.str "A") ∧
    (∀ (obs : Observation) (segs : List TimeSegment),
      ((appDurTitles obs.start_ts obs.end_ts segs).1).map Prod.fst
        = firstOccur ((segs.filter (fun seg =>
            overlapsSeg obs.start_ts obs.end_ts seg)).map (·.app_name))) ∧
    (∀ (obs : Observation) (segs : List TimeSegment) (a : String),
      pyMaxKey (appDurTitles obs.start_ts obs.end_ts segs).1 = some a →
      (overlayOne segs obs).app_name = some (.str a) ∧
      ∃ v l₁ l₂, (appDurTitles obs.start_ts obs.end_ts segs).1
          = l₁ ++ (a, v) :: l₂ ∧ (∀ p ∈ l₁, p.2 < v) ∧ (∀ p ∈ l₂, p.2 ≤ v)) := by
  have main : ∀ (obs : Observation) (segs : List TimeSegment) (a : String),
      pyMaxKey (appDurTitles obs.start_ts obs.end_ts segs).1 = some a →
      (overlayOne segs obs).app_name = some (.str a) ∧
      ∃ v l₁ l₂, (appDurTitles obs.start_ts obs.end_ts segs).1
          = l₁ ++ (a, v) :: l₂ ∧ (∀ p ∈ l₁, p.2 < v) ∧ (∀ p ∈ l₂, p.2 ≤ v) :=
    fun obs segs a h => ⟨by simp only [overlayOne, h], pyMaxKey_spec _ a h⟩
  exact ⟨(main
      { start_ts := 5, end_ts := 15, text := .str "X",
        app_name := some (.str "X"), window_title := none }
      [{ start := 0, stop := 10, app_name := "A", window_title := "ta" },
       { start := 10, stop := 20, app_name := "B", window_title := "tb" }]
      "A" (by
        norm_num [appDurTitles, durStep, addOverlap, addTitle, maxQ, minQ,
          pyMaxKey, maxKeyGo, (by decide : ("A" : String) ≠ "B")])).1,
    fun obs segs => appDurTitles_keys _ _ _, main⟩

/-- Witness for `C5_tie_break_earliest`, applying the tie-break part on
the claim's example segments. -/
theorem C5_witness :
    (overlayOne
        [{ start := 0, stop := 10, app_name := "A", window_title := "ta" },
         { start := 10, stop := 20, app_name := "B", window_title := "tb" }]
        { start_ts := 5, end_ts := 15, text := .str "X",
          app_name := some (.str "X"), window_title := none }).app_name
      = some (.str "A") ∧
    ∃ v l₁ l₂,
      (appDurTitles 5 15
          [{ start := 0, stop := 10, app_name := "A", window_title := "ta" },
           { start := 10, stop := 20, app_name := "B", window_title := "tb" }]).1
        = l₁ ++ ("A", v) :: l₂ ∧ (∀ p ∈ l₁, p.2 < v) ∧ (∀ p ∈ l₂, p.2 ≤ v) :=
  C5_tie_break_earliest.2.2
    { start_ts := 5, end_ts := 15, text := .str "X",
      app_name := some (.str "X"), window_title := none }
    [{ start := 0, stop := 10, app_name := "A", window_title := "ta" },
     { start := 10, stop := 20, app_name := "B", window_title := "tb" }]
    "A" (by
      norm_num [appDurTitles, durStep, addOverlap, addTitle, maxQ, minQ,
        pyMaxKey, maxKeyGo, (by decide : ("A" : String) ≠ "B")])

/-- C6 (confirmed): the overlay never increases the number of
observations; an observation with zero total overlap is returned
unchanged, and otherwise its new `app_name` is the app name of one of
the input segments. -/
theorem C6_overlay_invariants (observations : List Observation)
    (segs : List TimeSegment) (records : List WindowRecord) (duration : ℚ) :
    (observations.map (overlayOne segs)).length ≤ observations.length ∧
    (apply_window_records observations records duration).length
        ≤ observations.length ∧
    (∀ obs : Observation, totalOverlap obs segs = 0 → overlayOne segs obs = obs) ∧
    (∀ obs : Observation, totalOverlap obs segs ≠ 0 →
      ∃ seg ∈ segs, (overlayOne segs obs).app_name = some (.str seg.app_name)) := by
  refine ⟨by simp, ?_, fun obs h0 => ?_, fun obs hn => ?_⟩
  · unfold apply_window_records
    split
    · exact le_refl _
    · simp
  · have hall := (totalOverlap_eq_zero_iff obs segs).mp h0
    have hfil : segs.filter (fun seg =>
        overlapsSeg obs.start_ts obs.end_ts seg) = [] :=
      List.filter_eq_nil_iff.mpr (fun seg hseg => by simp [hall seg hseg])
    have hkeys := appDurTitles_keys obs.start_ts obs.end_ts segs
    rw [hfil] at hkeys
    have hmapnil : ((appDurTitles obs.start_ts obs.end_ts segs).1).map Prod.fst
        = [] := by
      simpa [firstOccur, firstOccurAux] using hkeys
    have hdurs : (appDurTitles obs.start_ts obs.end_ts segs).1 = [] :=
      List.map_eq_nil_iff.mp hmapnil
    simp [overlayOne, hdurs, pyMaxKey]
  · cases hmax : pyMaxKey (appDurTitles obs.start_ts obs.end_ts segs).1 with
    | none =>
      exfalso
      have hdurs : (appDurTitles obs.start_ts obs.end_ts segs).1 = [] := by
        cases hd : (appDurTitles obs.start_ts obs.end_ts segs).1 with
        | nil => rfl
        | cons p rest => rw [hd] at hmax; cases hmax
      have hkeys := appDurTitles_keys obs.start_ts obs.end_ts segs
      rw [hdurs] at hkeys
      have happs : ((segs.filter (fun seg =>
          overlapsSeg obs.start_ts obs.end_ts seg)).map (·.app_name)) = [] := by
        have := (firstOccurAux_eq_nil _ []).mp (by simpa [firstOccur] using hkeys.symm)
        cases happ : (segs.filter (fun seg =>
            overlapsSeg obs.start_ts obs.end_ts seg)).map (·.app_name) with
        | nil => rfl
        | cons x xs =>
          rw [happ] at this
          exact absurd (this x (List.mem_cons_self x xs)) (List.not_mem_nil x)
      have hfil : segs.filter (fun seg =>
          overlapsSeg obs.start_ts obs.end_ts seg) = [] :=
        List.map_eq_nil_iff.mp happs
      have : totalOverlap obs segs = 0 := by
        rw [totalOverlap_eq_zero_iff]
        intro seg hseg
        by_contra hb
        have htrue : overlapsSeg obs.start_ts obs.end_ts seg = true := by
          cases h : overlapsSeg obs.start_ts obs.end_ts seg
          · exact absurd h hb
          · rfl
        have : seg ∈ segs.filter (fun sg =>
            overlapsSeg obs.start_ts obs.end_ts sg) :=
          List.mem_filter.mpr ⟨hseg, htrue⟩
        rw [hfil] at this
        exact absurd this (List.not_mem_nil seg)
      exact hn this
    | some a =>
      obtain ⟨v, l₁, l₂, hsplit, -, -⟩ := pyMaxKey_spec _ a hmax
      have hmem : a ∈ ((appDurTitles obs.start_ts obs.end_ts segs).1).map
          Prod.fst := by
        rw [hsplit]
        simp
      rw [appDurTitles_keys] at hmem
      have hmem2 := firstOccurAux_subset _ _ _ (by simpa [firstOccur] using hmem)
      obtain ⟨seg, hseg, hsegname⟩ := List.mem_map.mp hmem2
      refine ⟨seg, (List.mem_filter.mp hseg).1, ?_⟩
      rw [hsegname]
      simp only [overlayOne, hmax]

/-- Witness for `C6_overlay_invariants`: an observation far outside the
telemetry keeps its fields; an overlapping one is re-attributed to a
segment's app. -/
theorem C6_witness :
    overlayOne [{ start := 0, stop := 10, app_name := "A", window_title := "t" }]
        { start_ts := 100, end_ts := 110, text := .str "z",
          app_name := some (.str "orig"), window_title := none }
      = { start_ts := 100, end_ts := 110, text := .str "z",
          app_name := some (.str "orig"), window_title := none } ∧
    ∃ seg ∈ ([{ start := 0, stop := 10, app_name := "A",
                window_title := "t" }] : List TimeSegment),
      (overlayOne [{ start := 0, stop := 10, app_name := "A", window_title := "t" }]
          { start_ts := 5, end_ts := 15, text := .str "z",
            app_name := some (.str "orig"), window_title := none }).app_name
        = some (.str seg.app_name) :=
  ⟨(C6_overlay_invariants []
      [{ start := 0, stop := 10, app_name := "A", window_title := "t" }] [] 0).2.2.1
      { start_ts := 100, end_ts := 110, text := .str "z",
        app_name := some (.str "orig"), window_title := none }
      (by norm_num [totalOverlap, maxQ, minQ]),
   (C6_overlay_invariants []
      [{ start := 0, stop := 10, app_name := "A", window_title := "t" }] [] 0).2.2.2
      { start_ts := 5, end_ts := 15, text := .str "z",
        app_name := some (.str "orig"), window_title := none }
      (by norm_num [totalOverlap, maxQ, minQ])⟩

/-- C9 (corrected), counterexample: three applications (A: 120 s,
B: 60 s, C: 60 s) with limit 2. The percentages are computed against the
total over **all** applications (4 minutes), so the returned top-2
percentages are 50 and 25 and sum to 75 — not 100 as the claim requires
when an application is truncated away. -/
theorem C9_counterexample :
    Stats.get_top_applications
        [⟨[⟨"A", 120⟩, ⟨"B", 60⟩]⟩, ⟨[⟨"C", 60⟩]⟩] 2
      = [{ name := "A", duration := 2, percentage := 50 },
         { name := "B", duration := 1, percentage := 25 }] ∧
    ((Stats.get_top_applications
        [⟨[⟨"A", 120⟩, ⟨"B", 60⟩]⟩, ⟨[⟨"C", 60⟩]⟩] 2).map
      Stats.TopApp.percentage).sum = 75 ∧
    (75 : ℚ) ≠ 100 := by
  refine ⟨?_, ?_, by norm_num⟩ <;>
    norm_num [Stats.get_top_applications, Stats.appDuration, Stats.totalDuration,
      Stats.sortDesc, addOverlap, pyRound1, roundHalfEven,
      List.insertionSort, List.orderedInsert, Int.floor_ofNat,
      (by decide : ("A" : String) ≠ "B"), (by decide : ("A" : String) ≠ "C"),
      (by decide : ("B" : String) ≠ "C")]

/-- Round-half-to-even is bounded by the floor and the floor plus one. -/
theorem roundHalfEven_bounds (q : ℚ) :
    ⌊q⌋ ≤ roundHalfEven q ∧ roundHalfEven q ≤ ⌊q⌋ + 1 := by
  unfold roundHalfEven
  split_ifs <;> omega

/-- Round-half-to-even is monotone. -/
theorem roundHalfEven_mono {a b : ℚ} (h : a ≤ b) :
    roundHalfEven a ≤ roundHalfEven b := by
  have hf : ⌊a⌋ ≤ ⌊b⌋ := Int.floor_le_floor h
  rcases lt_or_eq_of_le hf with hlt | heq
  · have ha := (roundHalfEven_bounds a).2
    have hb := (roundHalfEven_bounds b).1
    omega
  · unfold roundHalfEven
    rw [← heq]
    have hfr : a - (⌊a⌋ : ℚ) ≤ b - (⌊a⌋ : ℚ) := by linarith
    split_ifs <;> first | omega | (exfalso; linarith)

/-- `round(x, 1)` is monotone. -/
theorem pyRound1_mono {a b : ℚ} (h : a ≤ b) : pyRound1 a ≤ pyRound1 b := by
  unfold pyRound1
  have hm := roundHalfEven_mono (show 10 * a ≤ 10 * b by linarith)
  have hc : ((roundHalfEven (10 * a) : ℤ) : ℚ) ≤ ((roundHalfEven (10 * b) : ℤ) : ℚ) :=
    Int.cast_le.mpr hm
  linarith

/-- C9 (corrected), amended: `top_applications` sums `duration_seconds`
per application in minutes, stable-sorts descending, truncates to the
limit, and annotates each entry with its rounded percentage of the
total over **all** applications (computed before truncation) — so the
returned percentages sum to 100 only when no application is truncated
away. -/
theorem C9_top_applications_spec (cards : List Stats.Card) (limit : ℕ) :
    (Stats.get_top_applications cards limit).length ≤ limit ∧
    (∀ t ∈ Stats.get_top_applications cards limit,
      ∃ p ∈ Stats.appDuration cards,
        t.name = p.1 ∧ t.duration = pyRound1 p.2 ∧
        t.percentage = pyRound1
          (if 0 < Stats.totalDuration cards
           then p.2 / Stats.totalDuration cards * 100 else 0)) ∧
    List.Chain' (fun a b => b.duration ≤ a.duration)
      (Stats.get_top_applications cards limit) := by
  refine ⟨?_, ?_, ?_⟩
  · unfold Stats.get_top_applications
    rw [List.length_map, List.length_take]
    exact min_le_left _ _
  · intro t ht
    unfold Stats.get_top_applications at ht
    obtain ⟨p, hp, hf⟩ := List.mem_map.mp ht
    have hp₁ : p ∈ Stats.sortDesc (Stats.appDuration cards) :=
      List.mem_of_mem_take hp
    have hp₂ : p ∈ Stats.appDuration cards := by
      have := List.perm_insertionSort
        (fun a b : String × ℚ => b.2 ≤ a.2) (Stats.appDuration cards)
      exact this.subset hp₁
    exact ⟨p, hp₂, by rw [← hf], by rw [← hf], by rw [← hf]⟩
  · haveI : IsTotal (String × ℚ) (fun a b => b.2 ≤ a.2) :=
      ⟨fun a b => le_total b.2 a.2⟩
    haveI : IsTrans (String × ℚ) (fun a b => b.2 ≤ a.2) :=
      ⟨fun _ _ _ h₁ h₂ => le_trans h₂ h₁⟩
    have hs : List.Sorted (fun a b : String × ℚ => b.2 ≤ a.2)
        (Stats.sortDesc (Stats.appDuration cards)) :=
      List.sorted_insertionSort _ _
    have htake : List.Pairwise (fun a b : String × ℚ => b.2 ≤ a.2)
        ((Stats.sortDesc (Stats.appDuration cards)).take limit) :=
      List.Pairwise.sublist (List.take_sublist _ _) hs
    unfold Stats.get_top_applications
    exact (List.Pairwise.map
      (fun p : String × ℚ =>
        ({ name := p.1, duration := pyRound1 p.2,
           percentage := pyRound1
             (if 0 < Stats.totalDuration cards
              then p.2 / Stats.totalDuration cards * 100 else 0) } : Stats.TopApp))
      (fun a b hab => pyRound1_mono hab) htake).chain'

/-- Witness for `C9_top_applications_spec` on the counterexample's
cards: the "B" entry's percentage is taken against the all-apps total. -/
theorem C9_witness :
    (Stats.get_top_applications
        [⟨[⟨"A", 120⟩, ⟨"B", 60⟩]⟩, ⟨[⟨"C", 60⟩]⟩] 2).length ≤ 2 ∧
    ∃ p ∈ Stats.appDuration [⟨[⟨"A", 120⟩, ⟨"B", 60⟩]⟩, ⟨[⟨"C", 60⟩]⟩],
      ({ name := "B", duration := 1, percentage := 25 } : Stats.TopApp).name = p.1 ∧
      ({ name := "B", duration := 1, percentage := 25 } : Stats.TopApp).duration
        = pyRound1 p.2 ∧
      ({ name := "B", duration := 1, percentage := 25 } : Stats.TopApp).percentage
        = pyRound1
          (if 0 < Stats.totalDuration [⟨[⟨"A", 120⟩, ⟨"B", 60⟩]⟩, ⟨[⟨"C", 60⟩]⟩]
           then p.2 / Stats.totalDuration [⟨[⟨"A", 120⟩, ⟨"B", 60⟩]⟩, ⟨[⟨"C", 60⟩]⟩] * 100
           else 0) := by
  constructor
  · exact (C9_top_applications_spec
      [⟨[⟨"A", 120⟩, ⟨"B", 60⟩]⟩, ⟨[⟨"C", 60⟩]⟩] 2).1
  · apply (C9_top_applications_spec
      [⟨[⟨"A", 120⟩, ⟨"B", 60⟩]⟩, ⟨[⟨"C", 60⟩]⟩] 2).2.1
    have hcomp : Stats.get_top_applications
        [⟨[⟨"A", 120⟩, ⟨"B", 60⟩]⟩, ⟨[⟨"C", 60⟩]⟩] 2
        = [{ name := "A", duration := 2, percentage := 50 },
           { name := "B", duration := 1, percentage := 25 }] := by
      norm_num [Stats.get_top_applications, Stats.appDuration, Stats.totalDuration,
        Stats.sortDesc, addOverlap, pyRound1, roundHalfEven,
        List.insertionSort, List.orderedInsert, Int.floor_ofNat,
        (by decide : ("A" : String) ≠ "B"), (by decide : ("A" : String) ≠ "C"),
        (by decide : ("B" : String) ≠ "C")]
    rw [hcomp]
    exact List.mem_cons_of_mem _ (List.mem_cons_self _ _)

end Dayflow
